import Mathlib

/-!
Verification of the YUV / ARGB pixel-format conversion routines of the
`ftc-object-detection` repository
(`TFObjectDetector/tfod/src/main/cpp/image_utils/`).

The shallow embedding below models:

* `YUV2RGB` and `ConvertYUV420SPToARGB8888` from `yuv2rgb.cc`, translated
  line by line.  C `int` arithmetic is modelled by `Int` (no intermediate
  value here can leave the 32-bit range: channel magnitudes stay below
  `1192*239 + 2066*128 < 2^19`, and the C right shift is applied only to
  clamped non-negative values, so `Int` is exact).  The packed `uint32_t`
  result is modelled by `Nat`; all bit operations on it act on non-negative
  values.  The platform-conditional chroma order (`#ifdef __APPLE__`) is
  resolved to the non-Apple branch, which is the build configuration of this
  Android repository: `nV = pUV[offset]`, `nU = pUV[offset + 1]`.
* Pixel planes are modelled as `List Nat` of byte values; a C pointer read
  `p[i]` becomes `l.getD i 0` (the safety claim about the read indices is
  stated and proved separately).
* The reverse direction `ConvertARGB8888ToYUV420SP` (`rgb2yuv.cc`) is not
  among the excerpted sources and is modelled from the spec where needed.
-/

namespace ImageUtils

/-- `static const int kMaxChannelValue = 262143;` (2^18 - 1). -/
def kMaxChannelValue : Int := 262143

/-- The clamping step `n = MIN(kMaxChannelValue, MAX(0, n));` applied to each
channel in `YUV2RGB`. -/
def clampChannel (n : Int) : Int := min kMaxChannelValue (max 0 n)

/-- `static inline uint32_t YUV2RGB(int nY, int nU, int nV)` from
`yuv2rgb.cc`, translated line by line. -/
def YUV2RGB (nY nU nV : Int) : Nat :=
  let y : Int := nY - 16
  let u : Int := nU - 128
  let v : Int := nV - 128
  let y2 : Int := if y < 0 then 0 else y
  let nR : Int := 1192 * y2 + 1634 * v
  let nG : Int := 1192 * y2 - 833 * v - 400 * u
  let nB : Int := 1192 * y2 + 2066 * u
  let r : Nat := ((clampChannel nR).toNat >>> 10) &&& 0xff
  let g : Nat := ((clampChannel nG).toNat >>> 10) &&& 0xff
  let b : Nat := ((clampChannel nB).toNat >>> 10) &&& 0xff
  0xff000000 ||| (r <<< 16) ||| (g <<< 8) ||| b

/-- Variant of `YUV2RGB` without the final `& 0xff` mask on each shifted
channel; used to state that the mask in the source is redundant. -/
def YUV2RGBUnmasked (nY nU nV : Int) : Nat :=
  let y : Int := nY - 16
  let u : Int := nU - 128
  let v : Int := nV - 128
  let y2 : Int := if y < 0 then 0 else y
  let nR : Int := 1192 * y2 + 1634 * v
  let nG : Int := 1192 * y2 - 833 * v - 400 * u
  let nB : Int := 1192 * y2 + 2066 * u
  let r : Nat := (clampChannel nR).toNat >>> 10
  let g : Nat := (clampChannel nG).toNat >>> 10
  let b : Nat := (clampChannel nB).toNat >>> 10
  0xff000000 ||| (r <<< 16) ||| (g <<< 8) ||| b

/-- The per-pixel fixed-point recipe exactly as the specification words it:
Y' = max(Y-16, 0), U' = U-128, V' = V-128; R = 1192·Y' + 1634·V',
G = 1192·Y' - 833·V' - 400·U', B = 1192·Y' + 2066·U'; clamp each to
[0, 262143], right-shift by 10, mask to 8 bits, and pack as
0xFF000000 | (R<<16) | (G<<8) | B. -/
def specRecipeYUV2RGB (yVal uVal vVal : Int) : Nat :=
  let yp : Int := max (yVal - 16) 0
  let up : Int := uVal - 128
  let vp : Int := vVal - 128
  let rRaw : Int := 1192 * yp + 1634 * vp
  let gRaw : Int := 1192 * yp - 833 * vp - 400 * up
  let bRaw : Int := 1192 * yp + 2066 * up
  let rClamped : Int := min (max rRaw 0) 262143
  let gClamped : Int := min (max gRaw 0) 262143
  let bClamped : Int := min (max bRaw 0) 262143
  let r : Nat := (rClamped.toNat >>> 10) &&& 0xff
  let g : Nat := (gClamped.toNat >>> 10) &&& 0xff
  let b : Nat := (bClamped.toNat >>> 10) &&& 0xff
  0xff000000 ||| (r <<< 16) ||| (g <<< 8) ||| b

/-- Index of the luma sample read for output pixel (x, y): the loop reads
`*pY++`, i.e. `yData[y * width + x]`. -/
def lumaIndex (width x y : Nat) : Nat := y * width + x

/-- `int offset = (y >> 1) * width + 2 * (x >> 1);` — the position of the
chroma pair read for output pixel (x, y). -/
def chromaOffset (width x y : Nat) : Nat := (y >>> 1) * width + 2 * (x >>> 1)

/-- Body of the inner loop of `ConvertYUV420SPToARGB8888` for pixel (x, y):
reads `nY`, `nV = pUV[offset]`, `nU = pUV[offset + 1]` (non-Apple chroma
order) and dispatches on `uv_flipped`. -/
def convertPixel (yData uvData : List Nat) (width : Nat) (flip : Bool)
    (x y : Nat) : Nat :=
  let nY : Int := yData.getD (lumaIndex width x y) 0
  let nV : Int := uvData.getD (chromaOffset width x y) 0
  let nU : Int := uvData.getD (chromaOffset width x y + 1) 0
  if flip then YUV2RGB nY nV nU else YUV2RGB nY nU nV

/-- One iteration of the outer loop: the `width` output words written for
row `y`, in order of increasing `x`. -/
def convertRow (yData uvData : List Nat) (width : Nat) (flip : Bool)
    (y : Nat) : List Nat :=
  (List.range width).map (fun x => convertPixel yData uvData width flip x y)

/-- The first `h` rows of output, in the order the loop writes them. -/
def convertRows (yData uvData : List Nat) (width : Nat) (flip : Bool) :
    Nat → List Nat
  | 0 => []
  | h + 1 =>
      convertRows yData uvData width flip h ++
        convertRow yData uvData width flip h

/-- `void ConvertYUV420SPToARGB8888(const uint8_t* yData, const uint8_t*
uvData, uint32_t* output, int width, int height, bool uv_flipped)` from
`yuv2rgb.cc`: the sequence of 32-bit words written to `output`, in order. -/
def ConvertYUV420SPToARGB8888 (yData uvData : List Nat)
    (width height : Nat) (flip : Bool) : List Nat :=
  convertRows yData uvData width flip height

/-- Swap the two samples of every pair of the interleaved UV plane. -/
def swapUV : List Nat → List Nat
  | [] => []
  | [a] => [a]
  | a :: b :: rest => b :: a :: swapUV rest

/-- The red channel of `YUV2RGB`, before masking. -/
def chanR (nY nV : Int) : Nat :=
  (clampChannel (1192 * (if nY - 16 < 0 then 0 else nY - 16) +
    1634 * (nV - 128))).toNat >>> 10

/-- The green channel of `YUV2RGB`, before masking. -/
def chanG (nY nU nV : Int) : Nat :=
  (clampChannel (1192 * (if nY - 16 < 0 then 0 else nY - 16) -
    833 * (nV - 128) - 400 * (nU - 128))).toNat >>> 10

/-- The blue channel of `YUV2RGB`, before masking. -/
def chanB (nY nU : Int) : Nat :=
  (clampChannel (1192 * (if nY - 16 < 0 then 0 else nY - 16) +
    2066 * (nU - 128))).toNat >>> 10

/-- Red byte of a packed ARGB word (bits 16..23). -/
def argbR (w : Nat) : Nat := (w >>> 16) &&& 0xff

/-- Green byte of a packed ARGB word (bits 8..15). -/
def argbG (w : Nat) : Nat := (w >>> 8) &&& 0xff

/-- Blue byte of a packed ARGB word (bits 0..7). -/
def argbB (w : Nat) : Nat := w &&& 0xff

/-- Pack three channel bytes into an opaque ARGB word, as the spec's data
model describes the ARGB frame buffer layout. -/
def mkARGB (r g b : Nat) : Nat := 0xff000000 ||| (r <<< 16) ||| (g <<< 8) ||| b

/-- Modelled from the spec: the luma row of `ConvertARGB8888ToYUV420SP`
(`rgb2yuv.cc` is not among the excerpted sources; only its header include and
its JNI caller appear).  The spec requires the fixed-point BT.601 forward
matrix; this is its standard 8-bit fixed-point luma row with rounding, the
inverse companion of the 1192/1634/833/400/2066 matrix of `YUV2RGB`. -/
def RGB2Y (r g b : Nat) : Int := ((66 * (r:Int) + 129 * g + 25 * b + 128) / 256) + 16

/-- Modelled from the spec: the chroma U row of the fixed-point BT.601
forward matrix of `ConvertARGB8888ToYUV420SP` (source not excerpted). -/
def RGB2U (r g b : Nat) : Int := ((112 * (b:Int) - 38 * r - 74 * g + 128) / 256) + 128

/-- Modelled from the spec: the chroma V row of the fixed-point BT.601
forward matrix of `ConvertARGB8888ToYUV420SP` (source not excerpted). -/
def RGB2V (r g b : Nat) : Int := ((112 * (r:Int) - 94 * g - 18 * b + 128) / 256) + 128

/-- Modelled from the spec: `ConvertARGB8888ToYUV420SP` (source not
excerpted).  Produces the full-resolution luma plane followed by the
interleaved V,U chroma plane (same non-Apple pair order the reverse
direction reads), one chroma pair per 2x2 block, sampled at the block's
top-left pixel. -/
def ConvertARGB8888ToYUV420SP (input : List Nat) (width height : Nat) :
    List Nat × List Nat :=
  (((List.range height).map (fun y => (List.range width).map (fun x =>
      let p := input.getD (y * width + x) 0
      (RGB2Y (argbR p) (argbG p) (argbB p)).toNat))).flatten,
   ((List.range (height / 2)).map (fun yb => ((List.range (width / 2)).map (fun xb =>
      let p := input.getD ((2 * yb) * width + 2 * xb) 0
      [(RGB2V (argbR p) (argbG p) (argbB p)).toNat,
       (RGB2U (argbR p) (argbG p) (argbB p)).toNat])).flatten)).flatten)

/-- Round trip of a uniform 2x2 ARGB block: forward conversion modelled from
the spec (`ConvertARGB8888ToYUV420SP`), then the source's
`ConvertYUV420SPToARGB8888`. -/
def roundTrip2x2 (r g b : Nat) : List Nat :=
  let yuv := ConvertARGB8888ToYUV420SP (List.replicate 4 (mkARGB r g b)) 2 2
  ConvertYUV420SPToARGB8888 yuv.1 yuv.2 2 2 false

/-! ### Helper lemmas about the channel arithmetic -/

theorem clampChannel_nonneg (n : Int) : 0 ≤ clampChannel n := by
  simp only [clampChannel, kMaxChannelValue]
  omega

theorem clampChannel_le (n : Int) : clampChannel n ≤ 262143 := by
  simp only [clampChannel, kMaxChannelValue]
  omega

/-- A clamped channel, shifted right by 10 bits, fits in one byte. -/
theorem chanShift_le (n : Int) : (clampChannel n).toNat >>> 10 ≤ 255 := by
  rw [Nat.shiftRight_eq_div_pow]
  have h := clampChannel_le n
  have h0 := clampChannel_nonneg n
  norm_num
  omega

/-- The `& 0xff` applied after the 10-bit shift does not change the value. -/
theorem chanShift_mask (n : Int) :
    ((clampChannel n).toNat >>> 10) &&& 0xff = (clampChannel n).toNat >>> 10 := by
  have h := chanShift_le n
  exact Nat.and_pow_two_sub_one_of_lt_two_pow (x := (clampChannel n).toNat >>> 10)
    (n := 8) (by omega)

/-- The packed word, rewritten from bitwise ors into plain addition. -/
theorem pack_eq_add {r g b : Nat} (hr : r ≤ 255) (hg : g ≤ 255) (hb : b ≤ 255) :
    0xff000000 ||| (r <<< 16) ||| (g <<< 8) ||| b =
      4278190080 + 65536 * r + 256 * g + b := by
  rw [Nat.or_assoc, Nat.or_assoc, Nat.shiftLeft_eq, Nat.shiftLeft_eq]
  have h1 : g * 2 ^ 8 ||| b = 2 ^ 8 * g + b := by
    rw [Nat.mul_comm]
    exact (Nat.mul_add_lt_is_or (by omega) g).symm
  rw [h1]
  have h2 : r * 2 ^ 16 ||| (2 ^ 8 * g + b) = 2 ^ 16 * r + (2 ^ 8 * g + b) := by
    rw [Nat.mul_comm]
    refine (Nat.mul_add_lt_is_or ?_ r).symm
    have : (2:Nat) ^ 8 * g ≤ 2 ^ 8 * 255 := Nat.mul_le_mul_left _ hg
    norm_num at this ⊢
    omega
  rw [h2]
  have h3 : (0xff000000 : Nat) = 2 ^ 24 * 255 := by norm_num
  rw [h3]
  have h4 : 2 ^ 24 * 255 ||| (2 ^ 16 * r + (2 ^ 8 * g + b)) =
      2 ^ 24 * 255 + (2 ^ 16 * r + (2 ^ 8 * g + b)) := by
    refine (Nat.mul_add_lt_is_or ?_ 255).symm
    have hr' : (2:Nat) ^ 16 * r ≤ 2 ^ 16 * 255 := Nat.mul_le_mul_left _ hr
    have hg' : (2:Nat) ^ 8 * g ≤ 2 ^ 8 * 255 := Nat.mul_le_mul_left _ hg
    norm_num at hr' hg' ⊢
    omega
  rw [h4]
  norm_num
  omega

/-- Additive normal form of the packed `YUV2RGB` output. -/
theorem YUV2RGB_eq_add (nY nU nV : Int) :
    YUV2RGB nY nU nV =
      4278190080 + 65536 * chanR nY nV + 256 * chanG nY nU nV + chanB nY nU := by
  simp only [YUV2RGB, chanR, chanG, chanB, chanShift_mask]
  exact pack_eq_add (chanShift_le _) (chanShift_le _) (chanShift_le _)

/-! ### Helper lemmas about the output list -/

theorem convertRows_length (yData uvData : List Nat) (width : Nat)
    (flip : Bool) (h : Nat) :
    (convertRows yData uvData width flip h).length = h * width := by
  induction h with
  | zero => simp [convertRows]
  | succ n ih =>
      simp only [convertRows, List.length_append, ih, convertRow,
        List.length_map, List.length_range, Nat.succ_mul]

/-- The output word at raster position `y * width + x` is the per-pixel
conversion of the samples at `(x, y)`. -/
theorem convert_getD (yData uvData : List Nat) (width height : Nat)
    (flip : Bool) (x y : Nat) (hx : x < width) (hy : y < height) :
    (ConvertYUV420SPToARGB8888 yData uvData width height flip).getD
      (y * width + x) 0 = convertPixel yData uvData width flip x y := by
  unfold ConvertYUV420SPToARGB8888
  induction height with
  | zero => omega
  | succ n ih =>
      rw [convertRows, List.getD_eq_getElem?_getD]
      rcases Nat.lt_or_ge y n with hy2 | hy2
      · have hlt : y * width + x < (convertRows yData uvData width flip n).length := by
          rw [convertRows_length]
          have h1 : y * width + x < (y + 1) * width := by
            rw [Nat.succ_mul]; omega
          have h2 : (y + 1) * width ≤ n * width :=
            Nat.mul_le_mul_right width hy2
          omega
        rw [List.getElem?_append_left hlt, ← List.getD_eq_getElem?_getD]
        exact ih hy2
      · have hyn : y = n := by omega
        subst hyn
        have hge : (convertRows yData uvData width flip y).length ≤ y * width + x := by
          rw [convertRows_length]; omega
        rw [List.getElem?_append_right hge, convertRows_length]
        have hidx : y * width + x - y * width = x := by omega
        rw [hidx, convertRow]
        simp [List.getElem?_map, List.getElem?_range hx]

/-! ### Helper lemmas about `swapUV` -/

theorem swapUV_getD_even (k : Nat) :
    ∀ l : List Nat, l.length % 2 = 0 →
      (swapUV l).getD (2 * k) 0 = l.getD (2 * k + 1) 0 := by
  induction k with
  | zero =>
      intro l hl
      match l with
      | [] => simp [swapUV]
      | [a] => simp at hl
      | a :: b :: rest => simp [swapUV]
  | succ m ih =>
      intro l hl
      match l with
      | [] => simp [swapUV]
      | [a] => simp at hl
      | a :: b :: rest =>
          have h1 : 2 * (m + 1) = (2 * m + 1) + 1 := by omega
          have h2 : 2 * (m + 1) + 1 = (2 * m + 1 + 1) + 1 := by omega
          simp only [swapUV, h1, h2, List.getD_eq_getElem?_getD,
            List.getElem?_cons_succ]
          have h3 := ih rest (by simp at hl; omega)
          simpa [List.getD_eq_getElem?_getD] using h3

theorem swapUV_getD_odd (k : Nat) :
    ∀ l : List Nat, l.length % 2 = 0 →
      (swapUV l).getD (2 * k + 1) 0 = l.getD (2 * k) 0 := by
  induction k with
  | zero =>
      intro l hl
      match l with
      | [] => simp [swapUV]
      | [a] => simp at hl
      | a :: b :: rest => simp [swapUV]
  | succ m ih =>
      intro l hl
      match l with
      | [] => simp [swapUV]
      | [a] => simp at hl
      | a :: b :: rest =>
          have h1 : 2 * (m + 1) + 1 = (2 * m + 1) + 1 + 1 := by omega
          have h2 : 2 * (m + 1) = (2 * m) + 1 + 1 := by omega
          simp only [swapUV, h1, h2, List.getD_eq_getElem?_getD,
            List.getElem?_cons_succ]
          have h3 := ih rest (by simp at hl; omega)
          simpa [List.getD_eq_getElem?_getD] using h3

/-! ### Further helper lemmas -/

theorem YUV2RGB_eq_specRecipe (nY nU nV : Int) :
    YUV2RGB nY nU nV = specRecipeYUV2RGB nY nU nV := by
  have hmax : ∀ z : Int, (if z < 0 then 0 else z) = max z 0 := by
    intro z
    rcases le_or_lt 0 z with h | h
    · rw [if_neg (by omega), max_eq_left h]
    · rw [if_pos h, max_eq_right h.le]
  have hcomm : ∀ n : Int, min kMaxChannelValue (max 0 n) = min (max n 0) 262143 := by
    intro n
    rw [kMaxChannelValue, min_comm, max_comm]
  simp only [YUV2RGB, specRecipeYUV2RGB, clampChannel, hmax, hcomm]

theorem chanR_le (nY nV : Int) : chanR nY nV ≤ 255 := chanShift_le _

theorem chanG_le (nY nU nV : Int) : chanG nY nU nV ≤ 255 := chanShift_le _

theorem chanB_le (nY nU : Int) : chanB nY nU ≤ 255 := chanShift_le _

/-- Every `YUV2RGB` output word has high byte 0xFF and fits in 32 bits. -/
theorem YUV2RGB_hi (nY nU nV : Int) :
    YUV2RGB nY nU nV >>> 24 = 0xff ∧ YUV2RGB nY nU nV < 4294967296 := by
  rw [YUV2RGB_eq_add, Nat.shiftRight_eq_div_pow]
  have h1 := chanR_le nY nV
  have h2 := chanG_le nY nU nV
  have h3 := chanB_le nY nU
  norm_num
  omega

/-- Every element of the output list is some per-pixel conversion. -/
theorem mem_convert {p : Nat} (yData uvData : List Nat) (width height : Nat)
    (flip : Bool)
    (hp : p ∈ ConvertYUV420SPToARGB8888 yData uvData width height flip) :
    ∃ x y, p = convertPixel yData uvData width flip x y := by
  unfold ConvertYUV420SPToARGB8888 at hp
  induction height with
  | zero => simp [convertRows] at hp
  | succ n ih =>
      rw [convertRows] at hp
      rcases List.mem_append.mp hp with h1 | h2
      · exact ih h1
      · rw [convertRow] at h2
        obtain ⟨x, _, hpe⟩ := List.mem_map.mp h2
        exact ⟨x, n, hpe.symm⟩

theorem lumaIndex_bound {w h x y : Nat} (hx : x < w) (hy : y < h) :
    lumaIndex w x y < w * h := by
  simp only [lumaIndex]
  have h1 : y * w + x < (y + 1) * w := by rw [Nat.succ_mul]; omega
  have h2 : (y + 1) * w ≤ h * w := Nat.mul_le_mul_right _ hy
  have h3 : h * w = w * h := Nat.mul_comm h w
  omega

theorem chromaOffset_bound {w h x y : Nat} (hw : w % 2 = 0) (hh : h % 2 = 0)
    (hx : x < w) (hy : y < h) :
    chromaOffset w x y + 1 < w * h / 2 ∧
    w * h + chromaOffset w x y + 1 < w * h * 3 / 2 := by
  obtain ⟨a, rfl⟩ : ∃ a, w = 2 * a := ⟨w / 2, by omega⟩
  obtain ⟨b, rfl⟩ : ∃ b, h = 2 * b := ⟨h / 2, by omega⟩
  obtain ⟨a1, rfl⟩ : ∃ a1, a = a1 + 1 := ⟨a - 1, by omega⟩
  obtain ⟨b1, rfl⟩ : ∃ b1, b = b1 + 1 := ⟨b - 1, by omega⟩
  simp only [chromaOffset]
  rw [Nat.shiftRight_eq_div_pow, Nat.shiftRight_eq_div_pow, pow_one]
  have hy2 : y / 2 ≤ b1 := by omega
  have hx2 : x / 2 ≤ a1 := by omega
  have hmul : y / 2 * (2 * (a1 + 1)) ≤ b1 * (2 * (a1 + 1)) :=
    Nat.mul_le_mul_right _ hy2
  have ehalf : 2 * (a1 + 1) * (2 * (b1 + 1)) / 2 = (a1 + 1) * (2 * (b1 + 1)) := by
    rw [Nat.mul_assoc]
    exact Nat.mul_div_cancel_left _ (by norm_num)
  have e32 : 2 * (a1 + 1) * (2 * (b1 + 1)) * 3 / 2 =
      3 * ((a1 + 1) * (2 * (b1 + 1))) := by
    rw [show 2 * (a1 + 1) * (2 * (b1 + 1)) * 3 =
      2 * (3 * ((a1 + 1) * (2 * (b1 + 1)))) from by ring]
    exact Nat.mul_div_cancel_left _ (by norm_num)
  have efull : 2 * (a1 + 1) * (2 * (b1 + 1)) = 2 * ((a1 + 1) * (2 * (b1 + 1))) := by
    ring
  have key : b1 * (2 * (a1 + 1)) + 2 * a1 + 2 ≤ (a1 + 1) * (2 * (b1 + 1)) := by
    have hexp : (a1 + 1) * (2 * (b1 + 1)) = b1 * (2 * (a1 + 1)) + 2 * a1 + 2 := by
      ring
    omega
  rw [ehalf, e32, efull]
  omega

/-- The chroma pair offset of any pixel is even when the width is even. -/
theorem chromaOffset_even {w : Nat} (hw : w % 2 = 0) (x y : Nat) :
    ∃ k, chromaOffset w x y = 2 * k := by
  obtain ⟨a, rfl⟩ : ∃ a, w = 2 * a := ⟨w / 2, by omega⟩
  refine ⟨y >>> 1 * a + x >>> 1, ?_⟩
  simp only [chromaOffset]
  ring

theorem convertPixel_swap (yData uvData : List Nat) (w : Nat)
    (hw : w % 2 = 0) (hl : uvData.length % 2 = 0) (x y : Nat) :
    convertPixel yData uvData w true x y =
      convertPixel yData (swapUV uvData) w false x y := by
  obtain ⟨k, hk⟩ := chromaOffset_even hw x y
  simp only [convertPixel, if_true, Bool.false_eq_true, if_false, hk]
  rw [swapUV_getD_even k uvData hl, swapUV_getD_odd k uvData hl]

theorem convertRows_swap (yData uvData : List Nat) (w : Nat)
    (hw : w % 2 = 0) (hl : uvData.length % 2 = 0) (h : Nat) :
    convertRows yData uvData w true h =
      convertRows yData (swapUV uvData) w false h := by
  induction h with
  | zero => rfl
  | succ n ih =>
      have hrow : convertRow yData uvData w true n =
          convertRow yData (swapUV uvData) w false n := by
        rw [convertRow, convertRow]
        exact List.map_congr_left
          (fun x _ => convertPixel_swap yData uvData w hw hl x n)
      simp only [convertRows]
      rw [ih, hrow]

theorem and255_eq_mod (m : Nat) : m &&& 0xff = m % 256 := by
  have h := Nat.and_pow_two_sub_one_eq_mod m 8
  norm_num at h
  exact h

theorem argbR_add (R G B : Nat) (hR : R ≤ 255) (hG : G ≤ 255) (hB : B ≤ 255) :
    argbR (4278190080 + 65536 * R + 256 * G + B) = R := by
  simp only [argbR]
  rw [Nat.shiftRight_eq_div_pow, and255_eq_mod]
  norm_num
  omega

theorem argbG_add (R G B : Nat) (hR : R ≤ 255) (hG : G ≤ 255) (hB : B ≤ 255) :
    argbG (4278190080 + 65536 * R + 256 * G + B) = G := by
  simp only [argbG]
  rw [Nat.shiftRight_eq_div_pow, and255_eq_mod]
  norm_num
  omega

theorem argbB_add (R G B : Nat) (hR : R ≤ 255) (hG : G ≤ 255) (hB : B ≤ 255) :
    argbB (4278190080 + 65536 * R + 256 * G + B) = B := by
  simp only [argbB]
  rw [and255_eq_mod]
  omega

theorem argbR_mk {r g b : Nat} (hr : r ≤ 255) (hg : g ≤ 255) (hb : b ≤ 255) :
    argbR (mkARGB r g b) = r := by
  rw [mkARGB, pack_eq_add hr hg hb]
  exact argbR_add r g b hr hg hb

theorem argbG_mk {r g b : Nat} (hr : r ≤ 255) (hg : g ≤ 255) (hb : b ≤ 255) :
    argbG (mkARGB r g b) = g := by
  rw [mkARGB, pack_eq_add hr hg hb]
  exact argbG_add r g b hr hg hb

theorem argbB_mk {r g b : Nat} (hr : r ≤ 255) (hg : g ≤ 255) (hb : b ≤ 255) :
    argbB (mkARGB r g b) = b := by
  rw [mkARGB, pack_eq_add hr hg hb]
  exact argbB_add r g b hr hg hb

theorem RGB2Y_nonneg (r g b : Nat) : 0 ≤ RGB2Y r g b := by
  simp only [RGB2Y]
  omega

theorem RGB2U_nonneg (r g b : Nat) (hr : r ≤ 255) (hg : g ≤ 255) :
    0 ≤ RGB2U r g b := by
  simp only [RGB2U]
  omega

theorem RGB2V_nonneg (r g b : Nat) (hg : g ≤ 255) (hb : b ≤ 255) :
    0 ≤ RGB2V r g b := by
  simp only [RGB2V]
  omega

theorem argb2yuv_2x2 (p : Nat) :
    ConvertARGB8888ToYUV420SP (List.replicate 4 p) 2 2 =
      ([(RGB2Y (argbR p) (argbG p) (argbB p)).toNat,
        (RGB2Y (argbR p) (argbG p) (argbB p)).toNat,
        (RGB2Y (argbR p) (argbG p) (argbB p)).toNat,
        (RGB2Y (argbR p) (argbG p) (argbB p)).toNat],
       [(RGB2V (argbR p) (argbG p) (argbB p)).toNat,
        (RGB2U (argbR p) (argbG p) (argbB p)).toNat]) := rfl

theorem convert_2x2 (yD uvD : List Nat) :
    ConvertYUV420SPToARGB8888 yD uvD 2 2 false =
      [YUV2RGB (yD.getD 0 0) (uvD.getD 1 0) (uvD.getD 0 0),
       YUV2RGB (yD.getD 1 0) (uvD.getD 1 0) (uvD.getD 0 0),
       YUV2RGB (yD.getD 2 0) (uvD.getD 1 0) (uvD.getD 0 0),
       YUV2RGB (yD.getD 3 0) (uvD.getD 1 0) (uvD.getD 0 0)] := rfl

theorem roundTrip2x2_eq (r g b : Nat) (hr : r ≤ 255) (hg : g ≤ 255)
    (hb : b ≤ 255) :
    roundTrip2x2 r g b =
      List.replicate 4 (YUV2RGB (RGB2Y r g b) (RGB2U r g b) (RGB2V r g b)) := by
  simp only [roundTrip2x2]
  rw [argb2yuv_2x2, argbR_mk hr hg hb, argbG_mk hr hg hb, argbB_mk hr hg hb]
  rw [convert_2x2]
  simp only [List.getD_eq_getElem?_getD, List.getElem?_cons_zero,
    List.getElem?_cons_succ, Option.getD_some]
  rw [Int.toNat_of_nonneg (RGB2Y_nonneg r g b),
    Int.toNat_of_nonneg (RGB2U_nonneg r g b hr hg),
    Int.toNat_of_nonneg (RGB2V_nonneg r g b hg hb)]
  rfl

theorem chanR_roundtrip (r g b : Nat) (hr : r ≤ 255) (hg : g ≤ 255)
    (hb : b ≤ 255) :
    (chanR (RGB2Y r g b) (RGB2V r g b) : Int) - r ≤ 3 ∧
      (r : Int) - chanR (RGB2Y r g b) (RGB2V r g b) ≤ 3 := by
  simp only [chanR, RGB2Y, RGB2V, clampChannel, kMaxChannelValue]
  rw [Nat.shiftRight_eq_div_pow]
  norm_num
  simp only [min_def, max_def]
  repeat' split
  all_goals omega

theorem chanG_roundtrip (r g b : Nat) (hr : r ≤ 255) (hg : g ≤ 255)
    (hb : b ≤ 255) :
    (chanG (RGB2Y r g b) (RGB2U r g b) (RGB2V r g b) : Int) - g ≤ 3 ∧
      (g : Int) - chanG (RGB2Y r g b) (RGB2U r g b) (RGB2V r g b) ≤ 3 := by
  simp only [chanG, RGB2Y, RGB2U, RGB2V, clampChannel, kMaxChannelValue]
  rw [Nat.shiftRight_eq_div_pow]
  norm_num
  simp only [min_def, max_def]
  repeat' split
  all_goals omega

theorem chanB_roundtrip (r g b : Nat) (hr : r ≤ 255) (hg : g ≤ 255)
    (hb : b ≤ 255) :
    (chanB (RGB2Y r g b) (RGB2U r g b) : Int) - b ≤ 3 ∧
      (b : Int) - chanB (RGB2Y r g b) (RGB2U r g b) ≤ 3 := by
  simp only [chanB, RGB2Y, RGB2U, clampChannel, kMaxChannelValue]
  rw [Nat.shiftRight_eq_div_pow]
  norm_num
  simp only [min_def, max_def]
  repeat' split
  all_goals omega

/-! ### Claim theorems -/

/-- C1: for every pixel (x, y), `ConvertYUV420SPToARGB8888` (not flipped)
produces exactly the 32-bit word given by the spec's fixed-point recipe
applied to the pixel's luma sample and the chroma pair at its offset. -/
theorem claim1_pixel_matches_spec_recipe (yData uvData : List Nat)
    (width height x y : Nat) (hx : x < width) (hy : y < height) :
    (ConvertYUV420SPToARGB8888 yData uvData width height false).getD
        (y * width + x) 0 =
      specRecipeYUV2RGB (yData.getD (lumaIndex width x y) 0)
        (uvData.getD (chromaOffset width x y + 1) 0)
        (uvData.getD (chromaOffset width x y) 0) := by
  rw [convert_getD yData uvData width height false x y hx hy]
  simp only [convertPixel, Bool.false_eq_true, if_false]
  exact YUV2RGB_eq_specRecipe _ _ _

/-- Witness for C1 at a concrete 2x2 frame, pixel (1, 1). -/
theorem claim1_witness :
    (ConvertYUV420SPToARGB8888 [16,17,18,19] [100,200] 2 2 false).getD
        (1 * 2 + 1) 0 =
      specRecipeYUV2RGB ([16,17,18,19].getD (lumaIndex 2 1 1) 0)
        ([100,200].getD (chromaOffset 2 1 1 + 1) 0)
        ([100,200].getD (chromaOffset 2 1 1) 0) :=
  claim1_pixel_matches_spec_recipe [16,17,18,19] [100,200] 2 2 1 1
    (by decide) (by decide)

/-- C2: every 32-bit pixel written by `ConvertYUV420SPToARGB8888` fits in
32 bits and has its high (alpha) byte equal to 0xFF. -/
theorem claim2_alpha_opaque (yData uvData : List Nat) (width height : Nat)
    (flip : Bool) (p : Nat)
    (hp : p ∈ ConvertYUV420SPToARGB8888 yData uvData width height flip) :
    p >>> 24 = 0xff ∧ p < 4294967296 := by
  obtain ⟨x, y, rfl⟩ := mem_convert yData uvData width height flip hp
  simp only [convertPixel]
  cases flip with
  | false => simp only [Bool.false_eq_true, if_false]; exact YUV2RGB_hi _ _ _
  | true => simp only [if_true]; exact YUV2RGB_hi _ _ _

/-- Witness for C2 on a concrete 1x1 frame. -/
theorem claim2_witness :
    YUV2RGB 0 0 0 >>> 24 = 0xff ∧ YUV2RGB 0 0 0 < 4294967296 :=
  claim2_alpha_opaque [0] [0,0] 1 1 false (YUV2RGB 0 0 0) (by decide)

/-- C3: for positive even dimensions, the conversion writes exactly
width*height output words, each luma read index is below width*height, the
chroma reads at offset and offset+1 stay below width*height/2, and hence no
read of the combined planes reaches byte width*height*3/2. -/
theorem claim3_length_and_bounds (yData uvData : List Nat)
    (width height x y : Nat) (flip : Bool)
    (hw : width % 2 = 0) (hh : height % 2 = 0)
    (hw0 : 0 < width) (hh0 : 0 < height)
    (hx : x < width) (hy : y < height) :
    (ConvertYUV420SPToARGB8888 yData uvData width height flip).length =
        width * height ∧
      lumaIndex width x y < width * height ∧
      chromaOffset width x y < width * height / 2 ∧
      chromaOffset width x y + 1 < width * height / 2 ∧
      width * height + chromaOffset width x y + 1 < width * height * 3 / 2 := by
  have hb := chromaOffset_bound hw hh hx hy
  refine ⟨?_, lumaIndex_bound hx hy, by omega, hb.1, hb.2⟩
  unfold ConvertYUV420SPToARGB8888
  rw [convertRows_length, Nat.mul_comm]

/-- Witness for C3 at a concrete 2x2 frame, pixel (1, 1). -/
theorem claim3_witness :
    ((ConvertYUV420SPToARGB8888 [1,2,3,4] [5,6] 2 2 false).length = 2 * 2 ∧
      lumaIndex 2 1 1 < 2 * 2 ∧
      chromaOffset 2 1 1 < 2 * 2 / 2 ∧
      chromaOffset 2 1 1 + 1 < 2 * 2 / 2 ∧
      2 * 2 + chromaOffset 2 1 1 + 1 < 2 * 2 * 3 / 2) :=
  claim3_length_and_bounds [1,2,3,4] [5,6] 2 2 1 1 false
    (by decide) (by decide) (by decide) (by decide) (by decide) (by decide)

/-- C4: converting with uvFlipped=true equals swapping the U and V samples
of each pair of the UV plane and converting with uvFlipped=false. -/
theorem claim4_flip_is_swap (yData uvData : List Nat) (width height : Nat)
    (hw : width % 2 = 0) (hl : uvData.length % 2 = 0) :
    ConvertYUV420SPToARGB8888 yData uvData width height true =
      ConvertYUV420SPToARGB8888 yData (swapUV uvData) width height false :=
  convertRows_swap yData uvData width hw hl height

/-- Witness for C4 on a concrete 2x2 frame. -/
theorem claim4_witness :
    ConvertYUV420SPToARGB8888 [16,17,18,19] [100,200] 2 2 true =
      ConvertYUV420SPToARGB8888 [16,17,18,19] (swapUV [100,200]) 2 2 false :=
  claim4_flip_is_swap [16,17,18,19] [100,200] 2 2 (by decide) (by decide)

/-- C5: Y=16,U=128,V=128 maps to opaque black 0xFF000000 exactly, and
Y=235,U=128,V=128 maps to a uniform grey within one level of white. -/
theorem claim5_known_vectors :
    YUV2RGB 16 128 128 = 0xff000000 ∧
      ∃ c : Nat, YUV2RGB 235 128 128 = mkARGB c c c ∧ 255 - c ≤ 1 :=
  ⟨by decide, 254, by decide, by decide⟩

/-- C6: the chroma pair offset depends only on x>>1 and y>>1 (so all four
pixels of a 2x2-aligned block share it), and on a 2x2 frame all four output
pixels use the same chroma pair, differing only via their own luma. -/
theorem claim6_chroma_shared (w x y x2 y2 : Nat) (yData uvData : List Nat)
    (hx : x >>> 1 = x2 >>> 1) (hy : y >>> 1 = y2 >>> 1) :
    chromaOffset w x y = chromaOffset w x2 y2 ∧
      ConvertYUV420SPToARGB8888 yData uvData 2 2 false =
        [YUV2RGB (yData.getD 0 0) (uvData.getD 1 0) (uvData.getD 0 0),
         YUV2RGB (yData.getD 1 0) (uvData.getD 1 0) (uvData.getD 0 0),
         YUV2RGB (yData.getD 2 0) (uvData.getD 1 0) (uvData.getD 0 0),
         YUV2RGB (yData.getD 3 0) (uvData.getD 1 0) (uvData.getD 0 0)] := by
  constructor
  · simp only [chromaOffset, hx, hy]
  · exact convert_2x2 yData uvData

/-- Witness for C6 at pixels (2,0) and (3,1) of one block, concrete data. -/
theorem claim6_witness :
    (chromaOffset 2 2 0 = chromaOffset 2 3 1 ∧
      ConvertYUV420SPToARGB8888 [1,2,3,4] [5,6] 2 2 false =
        [YUV2RGB ([1,2,3,4].getD 0 0) ([5,6].getD 1 0) ([5,6].getD 0 0),
         YUV2RGB ([1,2,3,4].getD 1 0) ([5,6].getD 1 0) ([5,6].getD 0 0),
         YUV2RGB ([1,2,3,4].getD 2 0) ([5,6].getD 1 0) ([5,6].getD 0 0),
         YUV2RGB ([1,2,3,4].getD 3 0) ([5,6].getD 1 0) ([5,6].getD 0 0)]) :=
  claim6_chroma_shared 2 2 0 3 1 [1,2,3,4] [5,6] (by decide) (by decide)

/-- C7 (amended): a uniform-colour 2x2 ARGB block converted to YUV 4:2:0 SP
(forward direction modelled from the spec) and back reproduces every
channel of every pixel within 3 intensity levels; exactness does not hold
(see the counterexample). -/
theorem claim7_roundtrip_uniform (r g b i : Nat)
    (hr : r ≤ 255) (hg : g ≤ 255) (hb : b ≤ 255) (hi : i < 4) :
    ((argbR ((roundTrip2x2 r g b).getD i 0) : Int) - r ≤ 3 ∧
      (r : Int) - argbR ((roundTrip2x2 r g b).getD i 0) ≤ 3) ∧
    ((argbG ((roundTrip2x2 r g b).getD i 0) : Int) - g ≤ 3 ∧
      (g : Int) - argbG ((roundTrip2x2 r g b).getD i 0) ≤ 3) ∧
    ((argbB ((roundTrip2x2 r g b).getD i 0) : Int) - b ≤ 3 ∧
      (b : Int) - argbB ((roundTrip2x2 r g b).getD i 0) ≤ 3) := by
  have hgd : (roundTrip2x2 r g b).getD i 0 =
      YUV2RGB (RGB2Y r g b) (RGB2U r g b) (RGB2V r g b) := by
    rw [roundTrip2x2_eq r g b hr hg hb]
    interval_cases i <;> rfl
  rw [hgd, YUV2RGB_eq_add]
  rw [argbR_add _ _ _ (chanR_le _ _) (chanG_le _ _ _) (chanB_le _ _),
    argbG_add _ _ _ (chanR_le _ _) (chanG_le _ _ _) (chanB_le _ _),
    argbB_add _ _ _ (chanR_le _ _) (chanG_le _ _ _) (chanB_le _ _)]
  exact ⟨chanR_roundtrip r g b hr hg hb, chanG_roundtrip r g b hr hg hb,
    chanB_roundtrip r g b hr hg hb⟩

/-- Witness for C7 at the uniform grey (128,128,128) block, pixel 0. -/
theorem claim7_witness :
    ((argbR ((roundTrip2x2 128 128 128).getD 0 0) : Int) - 128 ≤ 3 ∧
      (128 : Int) - argbR ((roundTrip2x2 128 128 128).getD 0 0) ≤ 3) ∧
    ((argbG ((roundTrip2x2 128 128 128).getD 0 0) : Int) - 128 ≤ 3 ∧
      (128 : Int) - argbG ((roundTrip2x2 128 128 128).getD 0 0) ≤ 3) ∧
    ((argbB ((roundTrip2x2 128 128 128).getD 0 0) : Int) - 128 ≤ 3 ∧
      (128 : Int) - argbB ((roundTrip2x2 128 128 128).getD 0 0) ≤ 3) :=
  claim7_roundtrip_uniform 128 128 128 0 (by decide) (by decide) (by decide)
    (by decide)

/-- Counterexample to C7 as stated: the uniform white 2x2 block (a constant
colour spanning a full 2x2 chroma group) does not round-trip exactly; it
returns the grey (254,254,254) pixel instead of white. -/
theorem claim7_counterexample :
    (roundTrip2x2 255 255 255).getD 0 0 ≠ mkARGB 255 255 255 := by decide

/-- C8: the output word at (x, y) depends only on the luma byte at
`lumaIndex` and the two chroma bytes at `chromaOffset` and `chromaOffset+1`:
frames agreeing on those three bytes give identical output there. -/
theorem claim8_pixel_noninterference (yA uvA yB uvB : List Nat)
    (width height : Nat) (flip : Bool) (x y : Nat)
    (hx : x < width) (hy : y < height)
    (hY : yA.getD (lumaIndex width x y) 0 = yB.getD (lumaIndex width x y) 0)
    (hV : uvA.getD (chromaOffset width x y) 0 =
      uvB.getD (chromaOffset width x y) 0)
    (hU : uvA.getD (chromaOffset width x y + 1) 0 =
      uvB.getD (chromaOffset width x y + 1) 0) :
    (ConvertYUV420SPToARGB8888 yA uvA width height flip).getD (y * width + x) 0 =
      (ConvertYUV420SPToARGB8888 yB uvB width height flip).getD (y * width + x) 0 := by
  rw [convert_getD yA uvA width height flip x y hx hy,
    convert_getD yB uvB width height flip x y hx hy]
  simp only [convertPixel, hY, hV, hU]

/-- Witness for C8: two 2x1 frames that agree only on the three read bytes. -/
theorem claim8_witness :
    (ConvertYUV420SPToARGB8888 [10,50] [5,6,8,9] 2 1 false).getD (0 * 2 + 0) 0 =
      (ConvertYUV420SPToARGB8888 [10,60] [5,6,7,3] 2 1 false).getD (0 * 2 + 0) 0 :=
  claim8_pixel_noninterference [10,50] [5,6,8,9] [10,60] [5,6,7,3] 2 1 false 0 0
    (by decide) (by decide) (by decide) (by decide) (by decide)

/-- C9: all luma values at or below 16 produce the same output as luma 16,
and with neutral chroma (U=V=128) they all give opaque black. -/
theorem claim9_luma_crush (nY nU nV : Int) (h0 : 0 ≤ nY) (h16 : nY ≤ 16) :
    YUV2RGB nY nU nV = YUV2RGB 16 nU nV ∧ YUV2RGB nY 128 128 = 0xff000000 := by
  have hgen : ∀ u v : Int, YUV2RGB nY u v = YUV2RGB 16 u v := by
    intro u v
    simp only [YUV2RGB]
    have e1 : (if nY - 16 < 0 then 0 else nY - 16) = (0:Int) := by
      split <;> omega
    have e2 : (if (16:Int) - 16 < 0 then 0 else (16:Int) - 16) = (0:Int) := by
      norm_num
    rw [e1, e2]
  exact ⟨hgen nU nV, by rw [hgen 128 128]; decide⟩

/-- Witness for C9 at luma 7. -/
theorem claim9_witness :
    (YUV2RGB 7 3 77 = YUV2RGB 16 3 77 ∧ YUV2RGB 7 128 128 = 0xff000000) :=
  claim9_luma_crush 7 3 77 (by decide) (by decide)

/-- C10: the 8-bit mask after the shift is redundant: `YUV2RGB` equals its
unmasked variant, and every clamped, shifted channel already lies in
[0, 255], making the mask the identity on it. -/
theorem claim10_mask_redundant (nY nU nV n : Int) :
    YUV2RGB nY nU nV = YUV2RGBUnmasked nY nU nV ∧
      ((clampChannel n).toNat >>> 10) &&& 0xff = (clampChannel n).toNat >>> 10 ∧
      (clampChannel n).toNat >>> 10 ≤ 255 := by
  refine ⟨?_, chanShift_mask n, chanShift_le n⟩
  simp only [YUV2RGB, YUV2RGBUnmasked, chanShift_mask]

end ImageUtils


